import Mathlib

/-!
Verification development for the tabernacleorm repository.

The repository ships example applications, verification scripts, the CLI
command layer (`src/tabernacleorm/cli/commands.py`) and the migration file
generator (`src/tabernacleorm/migrations/generator.py`).  The engine-agnostic
query/mutation core (Model runtime, Query Builder, Population Resolver,
Migration Executor, reference engines) is not part of the source tree we were
given, so those components are modelled from the specification (sections 3,
4.1-4.5 of spec.md); each such definition carries a doc comment starting with
`Modelled from the spec:`.  The CLI command layer and the migration generator
are translated directly from their Python source.
-/

namespace Tabernacle

/-- Modelled from the spec: a stored field value.  Scalars (integer, string,
null for document/relational engines), plus the tagged results of population:
a resolved referenced record (`obj`) or an attached reverse collection
(`list`), as suggested by the spec's design note on tagged variants. -/
inductive Value where
  | int (i : Int)
  | str (s : String)
  | null
  | obj (fields : List (String × Value))
  | list (vs : List Value)

/-- Scalar equality used for predicate evaluation and foreign-key matching:
integers and strings compare by value, explicit nulls are equal to each
other, structured values never compare equal. -/
def Value.scalarEq : Value → Value → Bool
  | .int a, .int b => a = b
  | .str a, .str b => a = b
  | .null, .null => true
  | _, _ => false

/-- A value is scalar when it is an integer, a string or an explicit null. -/
def Value.isScalar : Value → Bool
  | .int _ => true
  | .str _ => true
  | .null => true
  | _ => false

/-- Scalar ordering: integers and strings compare within their own type,
comparisons across types or on structured values are false. -/
def Value.sLt : Value → Value → Bool
  | .int a, .int b => a < b
  | .str a, .str b => a < b
  | _, _ => false

/-- Modelled from the spec: a materialized record is a mapping from field
name to value (association list, first binding wins). -/
abbrev Record := List (String × Value)

/-- Look a field up in a record; `none` models an absent field. -/
def getField : Record → String → Option Value
  | [], _ => none
  | (k, v) :: rest, f => if k = f then some v else getField rest f

/-- Replace the value of an existing field in place (no-op when absent). -/
def setField : Record → String → Value → Record
  | [], _, _ => []
  | (k, v) :: rest, f, w => if k = f then (f, w) :: rest else (k, v) :: setField rest f w

/-- Write a field, replacing it in place when present and appending it when
absent (used to attach virtual reverse-collection fields). -/
def putField : Record → String → Value → Record
  | [], f, w => [(f, w)]
  | (k, v) :: rest, f, w => if k = f then (f, w) :: rest else (k, v) :: putField rest f w

/-- Modelled from the spec: the supported comparison operators of the
predicate tree (equals, not-equal, greater-than, greater-or-equal,
less-than, less-or-equal). -/
inductive Op where
  | opEq | opNe | opGt | opGte | opLt | opLte
deriving DecidableEq

/-- Modelled from the spec: the engine-neutral predicate tree — empty tree
(matches all), a field comparison, an "in set" membership test, and
conjunction (a filter document with several fields). -/
inductive Pred where
  | all
  | cmp (field : String) (op : Op) (v : Value)
  | inSet (field : String) (vs : List Value)
  | conj (p q : Pred)

/-- Evaluate one comparison operator on a present field value. -/
def evalOp (op : Op) (x v : Value) : Bool :=
  match op with
  | .opEq => x.scalarEq v
  | .opNe => !(x.scalarEq v)
  | .opGt => v.sLt x
  | .opGte => v.sLt x || x.scalarEq v
  | .opLt => x.sLt v
  | .opLte => x.sLt v || x.scalarEq v

/-- Modelled from the spec: predicate evaluation against one record.  A
missing field never satisfies a comparison and is distinct from an explicit
null. -/
def evalPred : Pred → Record → Bool
  | .all, _ => true
  | .cmp f op v, r =>
    match getField r f with
    | some x => evalOp op x v
    | none => false
  | .inSet f vs, r =>
    match getField r f with
    | some x => vs.any (fun v => x.scalarEq v)
    | none => false
  | .conj p q, r => evalPred p r && evalPred q r

/-- In-memory store backing the reference engine: collection name to record
sequence. -/
abbrev Store := List (String × List Record)

/-- Records of a collection; an unknown collection is empty. -/
def getColl : Store → String → List Record
  | [], _ => []
  | (c, rs) :: rest, name => if c = name then rs else getColl rest name

/-- Boolean record comparator for a sort-key list (field name, descending?). -/
def keyLE (keys : List (String × Bool)) (a b : Record) : Bool :=
  match keys with
  | [] => true
  | (f, desc) :: rest =>
    match getField a f, getField b f with
    | some x, some y =>
      if Value.sLt x y then !desc
      else if Value.sLt y x then desc
      else keyLE rest a b
    | _, _ => keyLE rest a b

/-- Insert into a list sorted by a boolean comparator. -/
def insertLE (le : Record → Record → Bool) (a : Record) : List Record → List Record
  | [] => [a]
  | b :: rest => if le a b then a :: b :: rest else b :: insertLE le a rest

/-- Insertion sort by a boolean comparator. -/
def sortWith (le : Record → Record → Bool) : List Record → List Record
  | [] => []
  | a :: rest => insertLE le a (sortWith le rest)

/-- Sort a record sequence by the accumulated sort keys; an empty key list
leaves the sequence untouched. -/
def sortByKeys (keys : List (String × Bool)) (l : List Record) : List Record :=
  match keys with
  | [] => l
  | _ => sortWith (keyLE keys) l

/-- Truncate by an optional limit; `none` keeps everything. -/
def applyLimit (limit : Option Nat) (l : List Record) : List Record :=
  match limit with
  | none => l
  | some n => l.take n

/-- Modelled from the spec: the Engine Contract `find` of the in-memory
reference engine — predicates before sort, sort before skip/limit. -/
def engineFind (st : Store) (c : String) (p : Pred) (keys : List (String × Bool))
    (skip : Nat) (limit : Option Nat) : List Record :=
  applyLimit limit ((sortByKeys keys ((getColl st c).filter (evalPred p))).drop skip)

/-- Modelled from the spec: the Engine Contract `count` — the number of
records of the collection matching the predicate. -/
def engineCount (st : Store) (c : String) (p : Pred) : Nat :=
  ((getColl st c).filter (evalPred p)).length

/-- One observable Engine `find` call, recorded for call-count
instrumentation (collection, predicate, skip, limit). -/
structure EngineCall where
  coll : String
  pred : Pred
  skip : Nat
  limit : Option Nat

/-- Deduplicate a list relative to a boolean equality, keeping one
representative of every equivalence class. -/
def dedupBy (eq : α → α → Bool) : List α → List α
  | [] => []
  | a :: rest =>
    let r := dedupBy eq rest
    if r.any (fun b => eq a b) then r else a :: r

/-- Modelled from the spec: a population request — either a forward
reference (the named field holds a foreign key into `refColl`, whose primary
key field is `refPk`) or a reverse collection (the virtual field collects the
records of `childColl` whose `fwdField` mirrors this record's `pkField`). -/
inductive PopReq where
  | forward (field refColl refPk : String)
  | reverse (field childColl fwdField pkField : String)

/-- Does a record of the referenced collection carry the primary-key value
`fk`? -/
def pkMatches (refPk : String) (fk : Value) (ref : Record) : Bool :=
  match getField ref refPk with
  | some pv => pv.scalarEq fk
  | none => false

/-- The deduplicated list of distinct foreign-key values of a batch. -/
def fkValues (field : String) (batch : List Record) : List Value :=
  dedupBy Value.scalarEq (batch.filterMap (fun r => getField r field))

/-- Resolve one record's forward reference against the fetched referenced
records: replace the foreign key with the referenced record when it is
found, leave the raw identifier in place on a population miss. -/
def resolveForwardOne (refs : List Record) (refPk field : String) (r : Record) : Record :=
  match getField r field with
  | none => r
  | some fk =>
    match refs.find? (pkMatches refPk fk) with
    | some ref => setField r field (Value.obj ref)
    | none => r

/-- Modelled from the spec: forward population of a batch — collect the
deduplicated set of distinct foreign-key values, issue exactly one Engine
`find` against the referenced collection with an "in set" predicate over
that set, then resolve each record against the fetched references.  The
function is total: a population miss leaves the raw identifier in place and
never raises. -/
def populateForward (st : Store) (field refColl refPk : String)
    (batch : List Record) : List Record × List EngineCall :=
  let fks := fkValues field batch
  let refs := engineFind st refColl (Pred.inSet refPk fks) [] 0 none
  (batch.map (resolveForwardOne refs refPk field), [⟨refColl, Pred.inSet refPk fks, 0, none⟩])

/-- Resolve one record's reverse collection against the fetched children:
attach as the virtual field the sequence of children whose forward field
equals this record's primary key (an empty sequence when none match). -/
def resolveReverseOne (children : List Record) (fwdField field pkField : String)
    (r : Record) : Record :=
  match getField r pkField with
  | none => r
  | some pk =>
    putField r field
      (Value.list ((children.filter (pkMatches fwdField pk)).map Value.obj))

/-- Modelled from the spec: reverse population of a batch — collect the
batch's primary-key values, issue one Engine `find` against the child
collection with an "in set" predicate over the forward field, then group the
children and attach each group as the virtual collection field (an empty
sequence, never an absence marker, when a record has no children). -/
def populateReverse (st : Store) (field childColl fwdField pkField : String)
    (batch : List Record) : List Record × List EngineCall :=
  let pks := dedupBy Value.scalarEq (batch.filterMap (fun r => getField r pkField))
  let children := engineFind st childColl (Pred.inSet fwdField pks) [] 0 none
  (batch.map (resolveReverseOne children fwdField field pkField),
   [⟨childColl, Pred.inSet fwdField pks, 0, none⟩])

/-- Run one population request over the accumulated result sequence,
appending the Engine calls it issued to the log. -/
def runPop (st : Store) (acc : List Record × List EngineCall) (p : PopReq) :
    List Record × List EngineCall :=
  match p with
  | .forward field refColl refPk =>
    let (rs, cs) := populateForward st field refColl refPk acc.1
    (rs, acc.2 ++ cs)
  | .reverse field childColl fwdField pkField =>
    let (rs, cs) := populateReverse st field childColl fwdField pkField acc.1
    (rs, acc.2 ++ cs)

/-- Modelled from the spec: the Query Builder's engine-agnostic accumulated
intent — predicate tree, sort keys, skip, limit and population requests. -/
structure Query where
  coll : String
  pred : Pred
  sortKeys : List (String × Bool)
  skipN : Nat
  limitN : Option Nat
  populates : List PopReq

/-- Modelled from the spec: a Model's `find` — a fresh Query Builder over
the model's collection holding only the given predicate. -/
def findQ (coll : String) (p : Pred) : Query :=
  ⟨coll, p, [], 0, none, []⟩

/-- Return a new Query Intent with the limit set (chaining is copy-based,
no ambient mutation). -/
def Query.withLimit (q : Query) (n : Nat) : Query :=
  { q with limitN := some n }

/-- Modelled from the spec: the `execute` terminal — one primary Engine
`find`, then the queued population requests; returns the result sequence
together with the log of Engine calls issued. -/
def Query.executeT (q : Query) (st : Store) : List Record × List EngineCall :=
  q.populates.foldl (runPop st)
    (engineFind st q.coll q.pred q.sortKeys q.skipN q.limitN,
     [⟨q.coll, q.pred, q.skipN, q.limitN⟩])

/-- Modelled from the spec: the `count` terminal — delegates the accumulated
predicate to the Engine's `count`. -/
def Query.countT (q : Query) (st : Store) : Nat :=
  engineCount st q.coll q.pred

/-- Modelled from the spec: the `first` terminal — `limit(1)`, execute, and
take the head of the (possibly empty) result sequence. -/
def Query.firstT (q : Query) (st : Store) : Option Record × List EngineCall :=
  let (rs, cs) := (q.withLimit 1).executeT st
  (rs.head?, cs)

/-- C1: for every predicate tree and every store, the count terminal of a
query equals the length of the executed result sequence of the same query:
`find(P).count() = len(find(P).execute())`. -/
theorem count_eq_length_execute (st : Store) (coll : String) (p : Pred) :
    (findQ coll p).countT st = ((findQ coll p).executeT st).1.length := by
  simp [Query.countT, Query.executeT, findQ, engineFind, engineCount,
    sortByKeys, applyLimit]

/-- C2: `first()` returns the head of the (possibly empty) result of the
same query with `limit(1)`, and issues exactly one Engine `find` call, with
limit 1; the fetched sequence never holds more than one record. -/
theorem first_is_limit_one_head (q : Query) (st : Store)
    (hpop : q.populates = []) :
    (q.firstT st).1 = ((q.withLimit 1).executeT st).1.head? ∧
    (q.firstT st).2 = [⟨q.coll, q.pred, q.skipN, some 1⟩] ∧
    ((q.withLimit 1).executeT st).1.length ≤ 1 := by
  obtain ⟨c, p, keys, sk, lim, pops⟩ := q
  simp only at hpop
  subst hpop
  refine ⟨rfl, rfl, ?_⟩
  simp [Query.executeT, Query.withLimit, engineFind, applyLimit]

/-- Witness for C2 at a concrete query and store. -/
theorem first_is_limit_one_head_witness :
    ((findQ "posts" Pred.all).firstT []).1 =
      (((findQ "posts" Pred.all).withLimit 1).executeT []).1.head? ∧
    ((findQ "posts" Pred.all).firstT []).2 = [⟨"posts", Pred.all, 0, some 1⟩] ∧
    (((findQ "posts" Pred.all).withLimit 1).executeT []).1.length ≤ 1 :=
  first_is_limit_one_head (findQ "posts" Pred.all) [] rfl

/-- An Engine `find` without sort keys, skip or limit is a plain filter of
the collection. -/
theorem engineFind_no_mods (st : Store) (c : String) (p : Pred) :
    engineFind st c p [] 0 none = (getColl st c).filter (evalPred p) := by
  simp [engineFind, sortByKeys, applyLimit]

/-- The output of `dedupBy` relates no two of its elements: it is
deduplicated. -/
theorem dedupBy_pairwise (eq : α → α → Bool) (l : List α) :
    (dedupBy eq l).Pairwise (fun a b => eq a b = false) := by
  induction l with
  | nil => simp [dedupBy]
  | cons a rest ih =>
    simp only [dedupBy]
    cases hh : (dedupBy eq rest).any (fun b => eq a b) with
    | true => simpa [hh] using ih
    | false =>
      simp only [hh, Bool.false_eq_true, if_false, List.pairwise_cons]
      exact ⟨fun b hb => by
        have := List.any_eq_false.mp hh b hb
        simpa using this, ih⟩

/-- Every element of the input has a representative in the `dedupBy`
output. -/
theorem dedupBy_any_of_mem (eq : α → α → Bool) (x : α) (hx : eq x x = true) :
    ∀ l : List α, x ∈ l → (dedupBy eq l).any (fun b => eq x b) = true := by
  intro l
  induction l with
  | nil => intro h; cases h
  | cons a rest ih =>
    intro hmem
    simp only [dedupBy]
    cases hh : (dedupBy eq rest).any (fun b => eq a b) with
    | true =>
      rcases List.mem_cons.mp hmem with rfl | hmem'
      · exact hh
      · exact ih hmem'
    | false =>
      rcases List.mem_cons.mp hmem with rfl | hmem'
      · simp [hx]
      · simp only [Bool.false_eq_true, if_false]
        have := ih hmem'
        simp only [List.any_eq_true] at this ⊢
        obtain ⟨b, hb, hxb⟩ := this
        exact ⟨b, List.mem_cons_of_mem _ hb, hxb⟩

/-- C3: populating a forward reference on a batch of K ≥ 1 records issues
exactly one additional Engine `find` call, against the referenced
collection, with an "in set" predicate over the deduplicated set of distinct
foreign-key values of the batch — never one call per record. -/
theorem forward_population_single_call (st : Store) (field refColl refPk : String)
    (batch : List Record) (hK : 1 ≤ batch.length) :
    (populateForward st field refColl refPk batch).2 =
      [⟨refColl, Pred.inSet refPk (fkValues field batch), 0, none⟩] ∧
    (fkValues field batch).Pairwise (fun a b => Value.scalarEq a b = false) := by
  exact ⟨rfl, dedupBy_pairwise _ _⟩

/-- Witness for C3 at a concrete two-record batch sharing one foreign key. -/
theorem forward_population_single_call_witness :
    (populateForward [] "author_id" "users" "id"
        [[("author_id", Value.int 7)], [("author_id", Value.int 7)]]).2 =
      [⟨"users",
        Pred.inSet "id"
          (fkValues "author_id"
            [[("author_id", Value.int 7)], [("author_id", Value.int 7)]]),
        0, none⟩] ∧
    (fkValues "author_id"
        [[("author_id", Value.int 7)], [("author_id", Value.int 7)]]).Pairwise
      (fun a b => Value.scalarEq a b = false) :=
  forward_population_single_call [] "author_id" "users" "id"
    [[("author_id", Value.int 7)], [("author_id", Value.int 7)]] (by decide)

/-- C4: a population miss — a record whose foreign key matches no record of
the referenced collection — leaves the raw identifier in place unchanged,
and population is applied record-wise (a map over the batch), so the other
records of the batch are unaffected; the resolver is a total function and
never raises. -/
theorem forward_population_miss (st : Store) (field refColl refPk : String)
    (batch : List Record) (r : Record) (fk : Value)
    (hr : r ∈ batch) (hget : getField r field = some fk)
    (hmiss : ∀ ref ∈ getColl st refColl, pkMatches refPk fk ref = false) :
    (populateForward st field refColl refPk batch).1 =
      batch.map
        (resolveForwardOne
          (engineFind st refColl (Pred.inSet refPk (fkValues field batch)) [] 0 none)
          refPk field) ∧
    resolveForwardOne
      (engineFind st refColl (Pred.inSet refPk (fkValues field batch)) [] 0 none)
      refPk field r = r := by
  refine ⟨rfl, ?_⟩
  have hrefs : ∀ ref ∈ engineFind st refColl
      (Pred.inSet refPk (fkValues field batch)) [] 0 none,
      pkMatches refPk fk ref = false := by
    intro ref href
    rw [engineFind_no_mods] at href
    exact hmiss ref (List.mem_filter.mp href).1
  have hfind : (engineFind st refColl (Pred.inSet refPk (fkValues field batch))
      [] 0 none).find? (pkMatches refPk fk) = none := by
    apply List.find?_eq_none.mpr
    intro x hx
    simp [hrefs x hx]
  simp [resolveForwardOne, hget, hfind]

/-- Witness for C4: a one-record batch whose foreign key points at a user
that does not exist in the referenced collection. -/
theorem forward_population_miss_witness :
    (populateForward [("users", [[("id", Value.int 1)]])] "author_id" "users" "id"
        [[("author_id", Value.int 9)]]).1 =
      [[("author_id", Value.int 9)]].map
        (resolveForwardOne
          (engineFind [("users", [[("id", Value.int 1)]])] "users"
            (Pred.inSet "id" (fkValues "author_id" [[("author_id", Value.int 9)]]))
            [] 0 none)
          "id" "author_id") ∧
    resolveForwardOne
      (engineFind [("users", [[("id", Value.int 1)]])] "users"
        (Pred.inSet "id" (fkValues "author_id" [[("author_id", Value.int 9)]]))
        [] 0 none)
      "id" "author_id" [("author_id", Value.int 9)] = [("author_id", Value.int 9)] :=
  forward_population_miss [("users", [[("id", Value.int 1)]])] "author_id" "users" "id"
    [[("author_id", Value.int 9)]] [("author_id", Value.int 9)] (Value.int 9)
    (by simp) rfl (by decide)

/-- Reading back a field just written with `putField` yields the written
value. -/
theorem getField_putField (r : Record) (f : String) (w : Value) :
    getField (putField r f w) f = some w := by
  induction r with
  | nil => simp [putField, getField]
  | cons kv rest ih =>
    obtain ⟨k, v⟩ := kv
    by_cases h : k = f
    · simp [putField, getField, h]
    · simp [putField, getField, h, ih]

/-- Scalar equality is reflexive on scalar values. -/
theorem scalarEq_refl (v : Value) (h : v.isScalar = true) :
    v.scalarEq v = true := by
  cases v <;> simp_all [Value.isScalar, Value.scalarEq]

/-- Scalar equality is transitive. -/
theorem scalarEq_trans (a b c : Value) (hab : a.scalarEq b = true)
    (hbc : b.scalarEq c = true) : a.scalarEq c = true := by
  cases a <;> cases b <;> cases c <;> simp_all [Value.scalarEq]

/-- The child records fetched by reverse population of a batch. -/
def fetchChildren (st : Store) (childColl fwdField pkField : String)
    (batch : List Record) : List Record :=
  engineFind st childColl
    (Pred.inSet fwdField
      (dedupBy Value.scalarEq (batch.filterMap (fun r => getField r pkField))))
    [] 0 none

/-- C5: reverse population attaches to every record of the batch, as the
virtual collection field, exactly the sequence of children of the child
collection whose forward field equals that record's primary key; a record
with zero matching children receives an empty sequence (`Value.list []`),
never an absence marker. -/
theorem reverse_population_attaches (st : Store)
    (field childColl fwdField pkField : String)
    (batch : List Record) (r : Record) (pk : Value)
    (hr : r ∈ batch) (hget : getField r pkField = some pk)
    (hsc : pk.isScalar = true) :
    (populateReverse st field childColl fwdField pkField batch).1 =
      batch.map
        (resolveReverseOne (fetchChildren st childColl fwdField pkField batch)
          fwdField field pkField) ∧
    getField
      (resolveReverseOne (fetchChildren st childColl fwdField pkField batch)
        fwdField field pkField r) field =
      some (Value.list
        (((getColl st childColl).filter (pkMatches fwdField pk)).map Value.obj)) ∧
    ((∀ c ∈ getColl st childColl, pkMatches fwdField pk c = false) →
      getField
        (resolveReverseOne (fetchChildren st childColl fwdField pkField batch)
          fwdField field pkField r) field = some (Value.list [])) := by
  have hfetch :
      (fetchChildren st childColl fwdField pkField batch).filter
        (pkMatches fwdField pk) =
      (getColl st childColl).filter (pkMatches fwdField pk) := by
    rw [fetchChildren, engineFind_no_mods, List.filter_filter]
    apply List.filter_congr
    intro c _
    cases hm : pkMatches fwdField pk c with
    | false => simp
    | true =>
      simp only [Bool.true_and]
      unfold pkMatches at hm
      rcases hcx : getField c fwdField with _ | x
      · rw [hcx] at hm; cases hm
      · rw [hcx] at hm
        have hpkmem : pk ∈ batch.filterMap (fun r => getField r pkField) :=
          List.mem_filterMap.mpr ⟨r, hr, hget⟩
        have hany := dedupBy_any_of_mem Value.scalarEq pk
          (scalarEq_refl pk hsc) _ hpkmem
        obtain ⟨b, hb, hpkb⟩ := List.any_eq_true.mp hany
        simp only [evalPred, hcx]
        exact List.any_eq_true.mpr ⟨b, hb, scalarEq_trans x pk b hm hpkb⟩
  have hres : getField
      (resolveReverseOne (fetchChildren st childColl fwdField pkField batch)
        fwdField field pkField r) field =
      some (Value.list
        (((getColl st childColl).filter (pkMatches fwdField pk)).map Value.obj)) := by
    rw [resolveReverseOne, hget, ← hfetch]
    exact getField_putField r field _
  refine ⟨rfl, hres, fun hnone => ?_⟩
  rw [hres, List.filter_eq_nil_iff.mpr (by intro a ha; simp [hnone a ha])]
  simp

/-- Witness for C5: a two-user batch over a store in which Alice has one
post and Bob has none; Bob receives the empty sequence. -/
theorem reverse_population_attaches_witness :
    (populateReverse
        [("posts", [[("id", Value.int 10), ("author_id", Value.int 1)]])]
        "posts" "posts" "author_id" "id"
        [[("id", Value.int 1)], [("id", Value.int 2)]]).1 =
      [[("id", Value.int 1)], [("id", Value.int 2)]].map
        (resolveReverseOne
          (fetchChildren
            [("posts", [[("id", Value.int 10), ("author_id", Value.int 1)]])]
            "posts" "author_id" "id"
            [[("id", Value.int 1)], [("id", Value.int 2)]])
          "author_id" "posts" "id") ∧
    getField
      (resolveReverseOne
        (fetchChildren
          [("posts", [[("id", Value.int 10), ("author_id", Value.int 1)]])]
          "posts" "author_id" "id"
          [[("id", Value.int 1)], [("id", Value.int 2)]])
        "author_id" "posts" "id" [("id", Value.int 2)]) "posts" =
      some (Value.list
        (((getColl
            [("posts", [[("id", Value.int 10), ("author_id", Value.int 1)]])]
            "posts").filter (pkMatches "author_id" (Value.int 2))).map Value.obj)) ∧
    getField
      (resolveReverseOne
        (fetchChildren
          [("posts", [[("id", Value.int 10), ("author_id", Value.int 1)]])]
          "posts" "author_id" "id"
          [[("id", Value.int 1)], [("id", Value.int 2)]])
        "author_id" "posts" "id" [("id", Value.int 2)]) "posts" =
      some (Value.list []) := by
  have h := reverse_population_attaches
    [("posts", [[("id", Value.int 10), ("author_id", Value.int 1)]])]
    "posts" "posts" "author_id" "id"
    [[("id", Value.int 1)], [("id", Value.int 2)]]
    [("id", Value.int 2)] (Value.int 2) (by simp) rfl (by decide)
  exact ⟨h.1, h.2.1, h.2.2 (by decide)⟩

/-- Modelled from the spec: one condition of the structured operator-map
filter surface syntax — either an exact-match value or an explicit operator
key with its comparison value (for example `\x7b"rating": \x7b"$gt": 3\x7d\x7d`). -/
inductive FilterCond where
  | exact (v : Value)
  | withOp (key : String) (v : Value)

/-- The structured surface syntax's operator keys. -/
def opOfKey : String → Option Op
  | "$eq" => some .opEq
  | "$ne" => some .opNe
  | "$gt" => some .opGt
  | "$gte" => some .opGte
  | "$lt" => some .opLt
  | "$lte" => some .opLte
  | _ => none

/-- The operator key of the structured surface syntax for each operator. -/
def opKey : Op → String
  | .opEq => "$eq"
  | .opNe => "$ne"
  | .opGt => "$gt"
  | .opGte => "$gte"
  | .opLt => "$lt"
  | .opLte => "$lte"

/-- Modelled from the spec: translation of one structured-syntax condition
into the canonical predicate tree; a pure function, no Engine argument. -/
def translStructured (field : String) (c : FilterCond) : Option Pred :=
  match c with
  | .exact v => some (Pred.cmp field .opEq v)
  | .withOp k v => (opOfKey k).map (fun o => Pred.cmp field o v)

/-- The keyword-style suffix of each operator (empty for the bare
exact-match kwarg). -/
def kwSuffix : Op → String
  | .opEq => ""
  | .opNe => "__ne"
  | .opGt => "__gt"
  | .opGte => "__gte"
  | .opLt => "__lt"
  | .opLte => "__lte"

/-- Split a reversed keyword-argument name into its operator suffix and the
reversed field name, longest suffixes first. -/
def kwSplitRev : List Char → Option (List Char × Op)
  | 'e' :: 't' :: 'g' :: '_' :: '_' :: rest => some (rest, .opGte)
  | 't' :: 'g' :: '_' :: '_' :: rest => some (rest, .opGt)
  | 'e' :: 't' :: 'l' :: '_' :: '_' :: rest => some (rest, .opLte)
  | 't' :: 'l' :: '_' :: '_' :: rest => some (rest, .opLt)
  | 'e' :: 'n' :: '_' :: '_' :: rest => some (rest, .opNe)
  | _ => none

/-- Modelled from the spec: translation of one keyword-style argument (an
optional double-underscore operator suffix, bare name meaning equality) into
the canonical predicate tree; a pure function, no Engine argument. -/
def translKwarg (key : String) (v : Value) : Pred :=
  match kwSplitRev key.data.reverse with
  | some (restRev, o) => Pred.cmp (String.mk restRev.reverse) o v
  | none => Pred.cmp key .opEq v

/-- C6: the structured operator-map form and the keyword-style shorthand
translate to identical canonical predicate trees for every filter
expressible in both syntaxes (any field whose name carries no operator
suffix of its own, any supported operator, any value), and both translations
are pure functions that take no Engine argument. -/
theorem surface_syntaxes_agree (field : String) (op : Op) (v : Value)
    (hfield : kwSplitRev field.data.reverse = none) :
    translKwarg (field ++ kwSuffix op) v = Pred.cmp field op v ∧
    translStructured field (.withOp (opKey op) v) = some (Pred.cmp field op v) ∧
    translStructured field (.exact v) = some (Pred.cmp field .opEq v) := by
  obtain ⟨l⟩ := field
  refine ⟨?_, by cases op <;> rfl, rfl⟩
  cases op
  · simpa [translKwarg, kwSuffix] using by rw [hfield]
  all_goals
    simp [translKwarg, kwSuffix, String.data_append, List.reverse_append,
      kwSplitRev, List.reverse_reverse]

/-- Witness for C6 at the field `views`, the greater-than operator and the
value 50 (the `views__gt=50` filter of the basic-usage example). -/
theorem surface_syntaxes_agree_witness :
    translKwarg ("views" ++ kwSuffix Op.opGt) (Value.int 50) =
      Pred.cmp "views" Op.opGt (Value.int 50) ∧
    translStructured "views" (.withOp (opKey Op.opGt) (Value.int 50)) =
      some (Pred.cmp "views" Op.opGt (Value.int 50)) ∧
    translStructured "views" (.exact (Value.int 50)) =
      some (Pred.cmp "views" Op.opEq (Value.int 50)) :=
  surface_syntaxes_agree "views" Op.opGt (Value.int 50) rfl

/-- Modelled from the spec: a Migration Unit — its timestamp identifier and
the outcome of its apply operation against the Engine's schema-mutation
surface (`true` when the apply succeeds). -/
structure MigUnit where
  ts : Nat
  applyOk : Bool

/-- Ascending timestamp order on migration units. -/
def MigUnit.tsLE (a b : MigUnit) : Prop := a.ts ≤ b.ts

instance : DecidableRel MigUnit.tsLE := fun a b => Nat.decLe a.ts b.ts

instance : IsTotal MigUnit MigUnit.tsLE := ⟨fun a b => Nat.le_total a.ts b.ts⟩

instance : IsTrans MigUnit MigUnit.tsLE := ⟨fun _ _ _ h h' => Nat.le_trans h h'⟩

/-- Apply an ordered list of units in sequence: record each unit's
identifier into the applied set only after its apply operation succeeds, and
halt, applying nothing further, at the first failure. -/
def applyUnits : List MigUnit → List Nat → List Nat
  | [], applied => applied
  | u :: rest, applied =>
    if u.applyOk then applyUnits rest (applied ++ [u.ts]) else applied

/-- The pending units of a migrate invocation, in ascending timestamp
order. -/
def pendingOf (units : List MigUnit) (applied : List Nat) : List MigUnit :=
  List.insertionSort MigUnit.tsLE (units.filter (fun u => !(applied.contains u.ts)))

/-- Modelled from the spec: `migrate()` — apply all pending units in
ascending timestamp order over the persisted applied set. -/
def migrate (units : List MigUnit) (applied : List Nat) : List Nat :=
  applyUnits (pendingOf units applied) applied

/-- Applying units in sequence extends the applied set by exactly the
timestamps of the longest all-successful prefix. -/
theorem applyUnits_eq (l : List MigUnit) :
    ∀ applied : List Nat,
      applyUnits l applied =
        applied ++ (l.takeWhile (fun u => u.applyOk)).map (fun u => u.ts) := by
  induction l with
  | nil => intro applied; simp [applyUnits]
  | cons u rest ih =>
    intro applied
    rw [applyUnits, List.takeWhile_cons]
    cases h : u.applyOk with
    | true => simp [h, ih (applied ++ [u.ts])]
    | false => simp [h]

/-- C7: after any `migrate()` invocation the applied set is the previous
applied set extended by exactly the identifiers of the longest prefix of the
pending units (taken in ascending timestamp order) whose apply operations
succeeded: each identifier is recorded only after a successful apply, a
mid-sequence failure halts all further application, and no unit past the
failure — and no failed unit — is ever marked applied. -/
theorem migrate_applied_set_exact (units : List MigUnit) (applied : List Nat) :
    migrate units applied =
      applied ++
        ((pendingOf units applied).takeWhile (fun u => u.applyOk)).map
          (fun u => u.ts) ∧
    (pendingOf units applied).Sorted MigUnit.tsLE ∧
    ∀ u ∈ (pendingOf units applied).takeWhile (fun u => u.applyOk),
      u.applyOk = true :=
  ⟨applyUnits_eq (pendingOf units applied) applied,
   List.sorted_insertionSort MigUnit.tsLE _,
   fun _ hu => List.mem_takeWhile_imp hu⟩

/-- Modelled from the spec: a field's timestamp behavior in the Schema
Descriptor — plain, stamped on every save (auto now), or stamped once at
creation (auto now add). -/
inductive FieldKind where
  | plain
  | autoNow
  | autoNowAdd
deriving DecidableEq

/-- Modelled from the spec: the Schema Descriptor restricted to what save
semantics needs — field name to timestamp behavior. -/
abbrev Schema := List (String × FieldKind)

/-- The declared kind of a field (plain when undeclared). -/
def kindOf : Schema → String → FieldKind
  | [], _ => .plain
  | (k, kd) :: rest, f => if k = f then kd else kindOf rest f

/-- Stamp every auto-now field of a record with the current time, leaving
all other fields untouched. -/
def stampAutoNow (sch : Schema) (now : Int) (r : Record) : Record :=
  r.map (fun kv => if kindOf sch kv.1 = .autoNow then (kv.1, Value.int now) else kv)

/-- Modelled from the spec: a persisted Model instance — the engine-assigned
primary key plus the current field values. -/
structure Inst where
  pk : Value
  fields : Record

/-- Persistence store keyed by primary key. -/
abbrev PStore := List (Value × Record)

/-- Persist a record under its primary key, replacing any previous row. -/
def storePut (st : PStore) (pk : Value) (r : Record) : PStore :=
  (pk, r) :: st.filter (fun e => !(e.1.scalarEq pk))

/-- Fetch the persisted row of a primary key. -/
def storeGet (st : PStore) (pk : Value) : Option Record :=
  (st.find? (fun e => e.1.scalarEq pk)).map (fun e => e.2)

/-- Modelled from the spec: instance-level `save()` — stamps the auto-now
timestamp fields, never touches the primary key or the auto-now-add fields,
and re-persists the instance's (possibly mutated) field values under its
primary key. -/
def save (sch : Schema) (now : Int) (acc : PStore × Inst) : PStore × Inst :=
  let i' : Inst := ⟨acc.2.pk, stampAutoNow sch now acc.2.fields⟩
  (storePut acc.1 acc.2.pk i'.fields, i')

/-- Any number of save operations in sequence, at the given times. -/
def saveMany (sch : Schema) (times : List Int) (acc : PStore × Inst) :
    PStore × Inst :=
  times.foldl (fun a t => save sch t a) acc

/-- The sub-record of the fields declared with a given kind. -/
def filterKind (sch : Schema) (kd : FieldKind) (r : Record) : Record :=
  r.filter (fun kv => kindOf sch kv.1 = kd)

/-- Stamping auto-now fields leaves the fields of every other kind
untouched. -/
theorem filterKind_stamp_other (sch : Schema) (now : Int) (kd : FieldKind)
    (hkd : kd ≠ FieldKind.autoNow) (r : Record) :
    filterKind sch kd (stampAutoNow sch now r) = filterKind sch kd r := by
  induction r with
  | nil => rfl
  | cons kv rest ih =>
    by_cases hk : kindOf sch kv.1 = .autoNow
    · have hne : FieldKind.autoNow ≠ kd := fun h => hkd h.symm
      simp [stampAutoNow, filterKind, List.filter_cons, hk, hne, hkd] at ih ⊢
      exact ih
    · by_cases hkk : kindOf sch kv.1 = kd
      · simp [stampAutoNow, filterKind, List.filter_cons, hk, hkk, hkd] at ih ⊢
        exact ih
      · simp [stampAutoNow, filterKind, List.filter_cons, hk, hkk, hkd] at ih ⊢
        exact ih

/-- Stamping sets every auto-now field to the given time. -/
theorem filterKind_stamp_now (sch : Schema) (now : Int) (r : Record) :
    filterKind sch .autoNow (stampAutoNow sch now r) =
      (filterKind sch .autoNow r).map (fun kv => (kv.1, Value.int now)) := by
  induction r with
  | nil => rfl
  | cons kv rest ih =>
    by_cases hk : kindOf sch kv.1 = .autoNow
    · simp [stampAutoNow, filterKind, List.filter_cons, hk] at ih ⊢
      exact ih
    · simp [stampAutoNow, filterKind, List.filter_cons, hk] at ih ⊢
      exact ih

/-- One save followed by the remaining saves. -/
theorem saveMany_cons (sch : Schema) (t : Int) (ts : List Int)
    (acc : PStore × Inst) :
    saveMany sch (t :: ts) acc = saveMany sch ts (save sch t acc) := rfl

/-- The primary key survives any number of saves. -/
theorem saveMany_pk (sch : Schema) (times : List Int) :
    ∀ acc : PStore × Inst, (saveMany sch times acc).2.pk = acc.2.pk := by
  induction times with
  | nil => intro acc; rfl
  | cons t ts ih =>
    intro acc
    rw [saveMany_cons]
    exact ih (save sch t acc)

/-- Fields of a fixed kind other than auto-now survive any number of
saves. -/
theorem saveMany_filter_other (sch : Schema) (kd : FieldKind)
    (hkd : kd ≠ FieldKind.autoNow) (times : List Int) :
    ∀ acc : PStore × Inst,
      filterKind sch kd (saveMany sch times acc).2.fields =
        filterKind sch kd acc.2.fields := by
  induction times with
  | nil => intro acc; rfl
  | cons t ts ih =>
    intro acc
    rw [saveMany_cons, ih (save sch t acc)]
    exact filterKind_stamp_other sch t kd hkd acc.2.fields

/-- After any number of saves the auto-now projection is either untouched
(no save happened) or uniformly stamped with one of the save times. -/
theorem saveMany_filter_now_cases (sch : Schema) (times : List Int) :
    ∀ acc : PStore × Inst,
      filterKind sch .autoNow (saveMany sch times acc).2.fields =
        filterKind sch .autoNow acc.2.fields ∨
      ∃ t' : Int,
        filterKind sch .autoNow (saveMany sch times acc).2.fields =
          (filterKind sch .autoNow acc.2.fields).map
            (fun kv => (kv.1, Value.int t')) := by
  induction times with
  | nil => intro acc; exact Or.inl rfl
  | cons t ts ih =>
    intro acc
    rw [saveMany_cons]
    rcases ih (save sch t acc) with h | ⟨t'', h⟩
    · refine Or.inr ⟨t, ?_⟩
      rw [h]
      exact filterKind_stamp_now sch t acc.2.fields
    · refine Or.inr ⟨t'', ?_⟩
      rw [h]
      have hs : filterKind sch .autoNow (save sch t acc).2.fields =
          (filterKind sch .autoNow acc.2.fields).map (fun kv => (kv.1, Value.int t)) :=
        filterKind_stamp_now sch t acc.2.fields
      rw [hs, List.map_map]
      rfl

/-- Reading a just-persisted row back yields the persisted fields. -/
theorem storeGet_storePut (st : PStore) (pk : Value) (r : Record)
    (h : pk.scalarEq pk = true) : storeGet (storePut st pk r) pk = some r := by
  simp [storeGet, storePut, List.find?, h]

/-- C8: for every persisted instance and any number of save operations
ending at time `t`, the saves leave the primary key and every auto-now-add
field unchanged from their initial values, carry the plain (possibly
mutated) field values through unchanged, stamp every auto-now field with the
final save time, and re-persist the resulting field values under the
instance's primary key. -/
theorem save_frame_and_stamp (sch : Schema) (times : List Int) (t : Int)
    (st : PStore) (i : Inst) (hsc : i.pk.isScalar = true) :
    (saveMany sch (times ++ [t]) (st, i)).2.pk = i.pk ∧
    filterKind sch .autoNowAdd (saveMany sch (times ++ [t]) (st, i)).2.fields =
      filterKind sch .autoNowAdd i.fields ∧
    filterKind sch .plain (saveMany sch (times ++ [t]) (st, i)).2.fields =
      filterKind sch .plain i.fields ∧
    filterKind sch .autoNow (saveMany sch (times ++ [t]) (st, i)).2.fields =
      (filterKind sch .autoNow i.fields).map (fun kv => (kv.1, Value.int t)) ∧
    storeGet (saveMany sch (times ++ [t]) (st, i)).1 i.pk =
      some (saveMany sch (times ++ [t]) (st, i)).2.fields := by
  have hsplit : saveMany sch (times ++ [t]) (st, i) =
      save sch t (saveMany sch times (st, i)) := by
    rw [saveMany, List.foldl_append]
    rfl
  have hpkmid : (saveMany sch times (st, i)).2.pk = i.pk := saveMany_pk sch times (st, i)
  refine ⟨?_, ?_, ?_, ?_, ?_⟩
  · rw [hsplit]; exact hpkmid
  · rw [hsplit, save]
    simp only
    rw [filterKind_stamp_other sch t .autoNowAdd (by simp) _]
    exact saveMany_filter_other sch .autoNowAdd (by simp) times (st, i)
  · rw [hsplit, save]
    simp only
    rw [filterKind_stamp_other sch t .plain (by simp) _]
    exact saveMany_filter_other sch .plain (by simp) times (st, i)
  · rw [hsplit, save]
    simp only
    rw [filterKind_stamp_now sch t _]
    rcases saveMany_filter_now_cases sch times (st, i) with h | ⟨t'', h⟩
    · rw [h]
    · rw [h, List.map_map]
      rfl
  · rw [hsplit, save]
    simp only
    rw [hpkmid]
    exact storeGet_storePut _ i.pk _ (scalarEq_refl i.pk hsc)

/-- Witness for C8: a schema with one plain, one auto-now and one
auto-now-add field, two saves at times 5 and 9. -/
theorem save_frame_and_stamp_witness :
    (saveMany
        [("title", FieldKind.plain), ("updated_at", FieldKind.autoNow),
         ("created_at", FieldKind.autoNowAdd)]
        ([5] ++ [9])
        ([], ⟨Value.int 1,
          [("title", Value.str "b"), ("updated_at", Value.int 0),
           ("created_at", Value.int 0)]⟩)).2.pk = Value.int 1 ∧
    filterKind
        [("title", FieldKind.plain), ("updated_at", FieldKind.autoNow),
         ("created_at", FieldKind.autoNowAdd)] .autoNowAdd
        (saveMany
          [("title", FieldKind.plain), ("updated_at", FieldKind.autoNow),
           ("created_at", FieldKind.autoNowAdd)]
          ([5] ++ [9])
          ([], ⟨Value.int 1,
            [("title", Value.str "b"), ("updated_at", Value.int 0),
             ("created_at", Value.int 0)]⟩)).2.fields =
      filterKind
        [("title", FieldKind.plain), ("updated_at", FieldKind.autoNow),
         ("created_at", FieldKind.autoNowAdd)] .autoNowAdd
        [("title", Value.str "b"), ("updated_at", Value.int 0),
         ("created_at", Value.int 0)] ∧
    filterKind
        [("title", FieldKind.plain), ("updated_at", FieldKind.autoNow),
         ("created_at", FieldKind.autoNowAdd)] .plain
        (saveMany
          [("title", FieldKind.plain), ("updated_at", FieldKind.autoNow),
           ("created_at", FieldKind.autoNowAdd)]
          ([5] ++ [9])
          ([], ⟨Value.int 1,
            [("title", Value.str "b"), ("updated_at", Value.int 0),
             ("created_at", Value.int 0)]⟩)).2.fields =
      filterKind
        [("title", FieldKind.plain), ("updated_at", FieldKind.autoNow),
         ("created_at", FieldKind.autoNowAdd)] .plain
        [("title", Value.str "b"), ("updated_at", Value.int 0),
         ("created_at", Value.int 0)] ∧
    filterKind
        [("title", FieldKind.plain), ("updated_at", FieldKind.autoNow),
         ("created_at", FieldKind.autoNowAdd)] .autoNow
        (saveMany
          [("title", FieldKind.plain), ("updated_at", FieldKind.autoNow),
           ("created_at", FieldKind.autoNowAdd)]
          ([5] ++ [9])
          ([], ⟨Value.int 1,
            [("title", Value.str "b"), ("updated_at", Value.int 0),
             ("created_at", Value.int 0)]⟩)).2.fields =
      (filterKind
        [("title", FieldKind.plain), ("updated_at", FieldKind.autoNow),
         ("created_at", FieldKind.autoNowAdd)] .autoNow
        [("title", Value.str "b"), ("updated_at", Value.int 0),
         ("created_at", Value.int 0)]).map (fun kv => (kv.1, Value.int 9)) ∧
    storeGet
        (saveMany
          [("title", FieldKind.plain), ("updated_at", FieldKind.autoNow),
           ("created_at", FieldKind.autoNowAdd)]
          ([5] ++ [9])
          ([], ⟨Value.int 1,
            [("title", Value.str "b"), ("updated_at", Value.int 0),
             ("created_at", Value.int 0)]⟩)).1 (Value.int 1) =
      some
        (saveMany
          [("title", FieldKind.plain), ("updated_at", FieldKind.autoNow),
           ("created_at", FieldKind.autoNowAdd)]
          ([5] ++ [9])
          ([], ⟨Value.int 1,
            [("title", Value.str "b"), ("updated_at", Value.int 0),
             ("created_at", Value.int 0)]⟩)).2.fields :=
  save_frame_and_stamp
    [("title", FieldKind.plain), ("updated_at", FieldKind.autoNow),
     ("created_at", FieldKind.autoNowAdd)]
    [5] 9 []
    ⟨Value.int 1,
      [("title", Value.str "b"), ("updated_at", Value.int 0),
       ("created_at", Value.int 0)]⟩ (by decide)

/-- A local wall-clock time, the fields `datetime.now()` exposes to
`strftime("%Y%m%d%H%M%S")`. -/
structure DateTime where
  year : Nat
  month : Nat
  day : Nat
  hour : Nat
  minute : Nat
  second : Nat

/-- The decimal digit character of `n % 10`. -/
def digOf (n : Nat) : Char := Char.ofNat (48 + n % 10)

/-- Two zero-padded decimal digits. -/
def pad2 (n : Nat) : List Char := [digOf (n / 10), digOf n]

/-- Four zero-padded decimal digits. -/
def pad4 (n : Nat) : List Char :=
  [digOf (n / 1000), digOf (n / 100), digOf (n / 10), digOf n]

/-- Modelled from the spec and the Python standard library:
`datetime.now().strftime("%Y%m%d%H%M%S")` — the current local time as 14
zero-padded decimal digits. -/
def tsFormat (d : DateTime) : String :=
  String.mk (pad4 d.year ++ pad2 d.month ++ pad2 d.day ++ pad2 d.hour ++
    pad2 d.minute ++ pad2 d.second)

/-- The migration file name built by `MigrationGenerator.generate`:
`f"\x7btimestamp\x7d_\x7bname\x7d.py"`. -/
def migFilename (ts name : String) : String := ts ++ "_" ++ name ++ ".py"

/-- The generated template up to the interpolated timestamp of the class
name. -/
def migContentHead : String :=
  "from tabernacleorm.migrations import Migration\n\nclass Migration_"

/-- The generated template after the interpolated timestamp. -/
def migContentTail : String :=
  "(Migration):\n    def up(self):\n        # self.create_collection(\"users\", \x7b\n        #     \"name\": \x7b\"type\": \"string\", \"required\": True\x7d\n        # \x7d)\n        pass\n        \n    def down(self):\n        # self.drop_collection(\"users\")\n        pass\n"

/-- The content `MigrationGenerator.generate` writes, with the timestamp
interpolated into the class name. -/
def migContent (ts : String) : String := migContentHead ++ ts ++ migContentTail

/-- A file system as a mapping from path to content. -/
abbrev FileSys := List (String × String)

/-- Python `open(path, "w")` followed by `write(content)`: create or overwrite. -/
def fsWrite (fs : FileSys) (p c : String) : FileSys :=
  (p, c) :: fs.filter (fun e => ¬ e.1 = p)

/-- The content stored at a path. -/
def fsLookup (fs : FileSys) (p : String) : Option String :=
  (fs.find? (fun e => e.1 = p)).map (fun e => e.2)

/-- How many files the file system holds at a path. -/
def fsCount (fs : FileSys) (p : String) : Nat :=
  (fs.filter (fun e => e.1 = p)).length

/-- The method `MigrationGenerator.generate(name)` translated from the source: ensure
the migration directory exists (creating its `__init__.py` when absent),
then write the timestamp-named migration file with the templated content. -/
def generate (migDir : String) (fs : FileSys) (d : DateTime) (name : String) :
    FileSys :=
  let fs1 :=
    if fsLookup fs (migDir ++ "/__init__.py") = none then
      fsWrite fs (migDir ++ "/__init__.py") ""
    else fs
  fsWrite fs1 (migDir ++ "/" ++ migFilename (tsFormat d) name)
    (migContent (tsFormat d))

/-- Looking up a just-written path yields the written content. -/
theorem fsLookup_fsWrite (fs : FileSys) (p c : String) :
    fsLookup (fsWrite fs p c) p = some c := by
  simp [fsLookup, fsWrite, List.find?]

/-- After a write the path holds exactly one file. -/
theorem fsCount_fsWrite (fs : FileSys) (p c : String) :
    fsCount (fsWrite fs p c) p = 1 := by
  have h2 : List.filter (fun e => decide (e.1 = p))
      (List.filter (fun e => decide (¬ e.1 = p)) fs) = [] := by
    rw [List.filter_filter]
    apply List.filter_eq_nil_iff.mpr
    intro a _
    by_cases he : a.1 = p <;> simp [he]
  simp [fsCount, fsWrite, List.filter_cons, h2]

/-- Every padded character is a decimal digit. -/
theorem digOf_isDigit (n : Nat) : (digOf n).isDigit = true := by
  rw [digOf]
  have h : n % 10 < 10 := Nat.mod_lt _ (by norm_num)
  set k := n % 10 with hk
  interval_cases k <;> decide

set_option maxRecDepth 8192 in
/-- C9: one call of `MigrationGenerator.generate` writes the file
`<ts>_<name>.py` under the migration directory with the templated content,
where `<ts>` is the current local time as 14 decimal digits; the content
declares the class `Migration_<ts>` and `up`/`down` methods; and because
`<ts>` has one-second resolution, a second same-name call in the same
second targets the same path and its write overwrites the first: afterwards
the path still holds exactly one file, with the rewritten content. -/
theorem generate_writes_timestamped_file (migDir name : String)
    (fs : FileSys) (d : DateTime) :
    (tsFormat d).length = 14 ∧
    (tsFormat d).data.all Char.isDigit = true ∧
    (∃ pre post : String,
      migContent (tsFormat d) =
        pre ++ ("class Migration_" ++ tsFormat d) ++ post) ∧
    (∃ pre post : String,
      migContent (tsFormat d) = pre ++ "def up(self):" ++ post) ∧
    (∃ pre post : String,
      migContent (tsFormat d) = pre ++ "def down(self):" ++ post) ∧
    fsLookup (generate migDir fs d name)
        (migDir ++ "/" ++ migFilename (tsFormat d) name) =
      some (migContent (tsFormat d)) ∧
    fsCount (generate migDir fs d name)
        (migDir ++ "/" ++ migFilename (tsFormat d) name) = 1 ∧
    fsLookup (generate migDir (generate migDir fs d name) d name)
        (migDir ++ "/" ++ migFilename (tsFormat d) name) =
      some (migContent (tsFormat d)) ∧
    fsCount (generate migDir (generate migDir fs d name) d name)
        (migDir ++ "/" ++ migFilename (tsFormat d) name) = 1 := by
  refine ⟨?_, ?_, ?_, ?_, ?_, ?_, ?_, ?_, ?_⟩
  · simp [tsFormat, pad4, pad2, String.length]
  · simp [tsFormat, pad4, pad2, digOf_isDigit]
  · exact ⟨"from tabernacleorm.migrations import Migration\n\n",
      migContentTail, rfl⟩
  · refine ⟨migContentHead ++ tsFormat d ++ "(Migration):\n    ",
      "\n        # self.create_collection(\"users\", \x7b\n        #     \"name\": \x7b\"type\": \"string\", \"required\": True\x7d\n        # \x7d)\n        pass\n        \n    def down(self):\n        # self.drop_collection(\"users\")\n        pass\n", ?_⟩
    rfl
  · refine ⟨migContentHead ++ tsFormat d ++
      "(Migration):\n    def up(self):\n        # self.create_collection(\"users\", \x7b\n        #     \"name\": \x7b\"type\": \"string\", \"required\": True\x7d\n        # \x7d)\n        pass\n        \n    ",
      "\n        # self.drop_collection(\"users\")\n        pass\n", ?_⟩
    rfl
  · exact fsLookup_fsWrite _ _ _
  · exact fsCount_fsWrite _ _ _
  · exact fsLookup_fsWrite _ _ _
  · exact fsCount_fsWrite _ _ _

/-- The candidate application files `load_app` probes, in source order. -/
def potentialFiles : List String :=
  ["app.py", "main.py", "config.py", "wsgi.py", "asgi.py"]

/-- The body of `load_app`'s loop, translated from the source: every
existing candidate is executed (the loop has no early exit); an exception
raised while executing a file — modelled as `runFile f = some message` — is
caught and turned into a printed warning, never propagated.  Returns the
files executed and the warnings printed. -/
def loadAppLoop (runFile : String → Option String) (existing : List String) :
    List String → List String × List String
  | [] => ([], [])
  | f :: rest =>
    let acc := loadAppLoop runFile existing rest
    if f ∈ existing then
      match runFile f with
      | some e =>
        (f :: acc.1, ("Warning: Failed to load " ++ f ++ ": " ++ e) :: acc.2)
      | none => (f :: acc.1, acc.2)
    else acc

/-- The function `load_app()` translated from the source. -/
def loadApp (existing : List String) (runFile : String → Option String) :
    List String × List String :=
  loadAppLoop runFile existing potentialFiles

/-- Observable trace of one CLI command: the files `load_app` executed, the
warnings it printed, and whether the command reached its executor/shell
step. -/
structure CmdTrace where
  loaded : List String
  warnings : List String
  executorRan : Bool

/-- The command `migrate()` translated from the source: `load_app()` then the migration
executor runs unconditionally. -/
def migrateCmd (existing : List String) (runFile : String → Option String) :
    CmdTrace :=
  ⟨(loadApp existing runFile).1, (loadApp existing runFile).2, true⟩

/-- The command `rollback()` translated from the source: `load_app()` then the
migration executor's rollback runs unconditionally. -/
def rollbackCmd (existing : List String) (runFile : String → Option String) :
    CmdTrace :=
  ⟨(loadApp existing runFile).1, (loadApp existing runFile).2, true⟩

/-- The command `shell()` translated from the source: `load_app()` then the interactive
shell runs unconditionally. -/
def shellCmd (existing : List String) (runFile : String → Option String) :
    CmdTrace :=
  ⟨(loadApp existing runFile).1, (loadApp existing runFile).2, true⟩

/-- The claim's reading of which file `load_app` loads: only the first
existing of the candidates. -/
def firstExisting (existing : List String) : Option String :=
  potentialFiles.find? (fun f => f ∈ existing)

/-- Counterexample to C10 as stated: when both `app.py` and `main.py`
exist, `load_app` does not execute only the first existing candidate — its
loop has no early exit, so it executes both files. -/
theorem loadApp_not_only_first :
    (loadApp ["app.py", "main.py"] (fun _ => some "boom")).1 ≠
      (firstExisting ["app.py", "main.py"]).toList ∧
    (loadApp ["app.py", "main.py"] (fun _ => some "boom")).1 =
      ["app.py", "main.py"] := by
  refine ⟨?_, by decide⟩
  decide

/-- The loop executes exactly the existing candidates and warns exactly on
the executions that raised. -/
theorem loadAppLoop_spec (runFile : String → Option String)
    (existing : List String) (l : List String) :
    loadAppLoop runFile existing l =
      (l.filter (fun f => f ∈ existing),
       (l.filter (fun f => f ∈ existing)).filterMap
         (fun f => (runFile f).map
           (fun e => "Warning: Failed to load " ++ f ++ ": " ++ e))) := by
  induction l with
  | nil => rfl
  | cons f rest ih =>
    simp only [loadAppLoop, List.filter_cons]
    by_cases hf : f ∈ existing
    · cases hr : runFile f with
      | some e => simp [hf, hr, ih]
      | none => simp [hf, hr, ih]
    · simp [hf, ih]

/-- C10 (amended): for every CLI invocation of `migrate()`, `rollback()` or
`shell()`, `load_app` executes every existing candidate among `app.py`,
`main.py`, `config.py`, `wsgi.py`, `asgi.py` (not only the first — the loop
has no early exit); an exception raised while executing any of them is
caught and printed as a warning, never propagated, and the command always
proceeds to run the migration executor or shell. -/
theorem load_app_catches_and_proceeds (existing : List String)
    (runFile : String → Option String) :
    (migrateCmd existing runFile).executorRan = true ∧
    (rollbackCmd existing runFile).executorRan = true ∧
    (shellCmd existing runFile).executorRan = true ∧
    (migrateCmd existing runFile).loaded =
      potentialFiles.filter (fun f => f ∈ existing) ∧
    (migrateCmd existing runFile).warnings =
      (potentialFiles.filter (fun f => f ∈ existing)).filterMap
        (fun f => (runFile f).map
          (fun e => "Warning: Failed to load " ++ f ++ ": " ++ e)) := by
  have h := loadAppLoop_spec runFile existing potentialFiles
  refine ⟨rfl, rfl, rfl, ?_, ?_⟩
  · show (loadApp existing runFile).1 = _
    rw [loadApp, h]
  · show (loadApp existing runFile).2 = _
    rw [loadApp, h]

end Tabernacle
